import Mathlib

/-!
# Block-hash verification storage (`ams::fssystem::IntegrityVerificationStorage`)

A shallow embedding of
`libstratosphere/include/stratosphere/fssystem/fssystem_integrity_verification_storage.hpp`.

The header defines `HashSize`, `BlockHash`, the members of the class, the
constructor and destructor, `SetSize`, the public `CalcBlockHash`, the private
three-argument `CalcBlockHash`, `GetBlockSize`, `SetValidationBit` and
`IsValidationBit`; these are translated from the header.  `Initialize`,
`Finalize`, `Read`, `Write`, `GetSize`, `ReadBlockSignature`,
`WriteBlockSignature`, `VerifyHash`, `IsCleared` and the four-argument
`CalcBlockHash` are only declared there; their definitions below follow the
written specification and say so in their doc comments.

Bytes are `Fin 256`; every bitwise operation goes through `Nat` and is reduced
modulo `256` explicitly.
-/

namespace ams.fssystem

/-- An unsigned 8-bit value (`u8`). -/
abbrev u8 := Fin 256

/-- The statement `a | b` on two `u8` values, truncated back to 8 bits. -/
def u8_or (a b : u8) : u8 := ⟨(a.val ||| b.val) % 256, Nat.mod_lt _ (by decide)⟩

/-- The statement `a & b` on two `u8` values, truncated back to 8 bits. -/
def u8_and (a b : u8) : u8 := ⟨(a.val &&& b.val) % 256, Nat.mod_lt _ (by decide)⟩

/-- Result codes.  `Success` and
`ResultUnsupportedSetSizeForIntegrityVerificationStorage` are the two the header
names (the latter is the "UnsupportedOperation" kind of the specification); the
remaining constructors are the error kinds of the specification's taxonomy. -/
inductive Result where
  | Success
  | ResultUnsupportedSetSizeForIntegrityVerificationStorage
  | ConfigurationError
  | InvalidArgument
  | PermissionDenied
  | DataCorrupted
  | ResourceExhausted
  | UnderlyingStorageError
  deriving DecidableEq, Repr

/-- The constant `HashSize = crypto::Sha256Generator::HashSize`.  Its value is
defined outside the header; a SHA-256 digest has 32 bytes. -/
def HashSize : Nat := 32

/-- The type `struct BlockHash { u8 hash[HashSize]; }`. -/
@[ext] structure BlockHash where
  hash : Fin HashSize → u8

/-- Two hashes are the same when they agree byte for byte. -/
instance : DecidableEq BlockHash := fun a b =>
  @decidable_of_iff _ (∀ i : Fin HashSize, a.hash i = b.hash i)
    ⟨fun h => BlockHash.ext (funext h), fun h _ => h ▸ rfl⟩
    (Nat.decidableForallFin _)

namespace BlockHash

/-- The all-zero byte pattern, reserved for "entry never written". -/
def zero : BlockHash := { hash := fun _ => 0 }

/-- The 32 bytes of a hash, in index order, as they are laid out in hash storage. -/
def toBytes (h : BlockHash) : List u8 :=
  (List.range HashSize).map (fun i => if hi : i < HashSize then h.hash ⟨i, hi⟩ else 0)

/-- Reinterpret 32 bytes read from hash storage as a `BlockHash`. -/
def ofBytes (l : List u8) : BlockHash := { hash := fun i => l.getD i.val 0 }

end BlockHash

/-- Modelled from the spec: the sub-storage interface (`fs::SubStorage`, not part
of the header).  A sub-storage is an in-memory byte array of fixed length; the
cache that serves hash-storage pages sits behind this interface and does not
change what a read returns. -/
structure SubStorage where
  bytes : List u8
  deriving DecidableEq, Repr

namespace SubStorage

/-- Modelled from the spec: `GetSize() → Result<int64>` of the sub-storage
interface. -/
def GetSize (s : SubStorage) : Nat := s.bytes.length

/-- Modelled from the spec: `Read(offset, buf, size) → Result` of the sub-storage
interface; a range outside the storage is an underlying storage error. -/
def Read (s : SubStorage) (offset size : Nat) : Except Result (List u8) :=
  if offset + size ≤ s.bytes.length then
    .ok ((s.bytes.drop offset).take size)
  else
    .error Result.UnderlyingStorageError

/-- Modelled from the spec: `Write(offset, buf, size) → Result` of the sub-storage
interface; the storage keeps its length, a range outside it is an underlying
storage error and changes nothing. -/
def Write (s : SubStorage) (offset : Nat) (data : List u8) : Except Result SubStorage :=
  if offset + data.length ≤ s.bytes.length then
    .ok { bytes := s.bytes.take offset ++ data ++ s.bytes.drop (offset + data.length) }
  else
    .error Result.UnderlyingStorageError

end SubStorage

/-- Modelled from the spec: the hash generator interface
(`fssystem::IHash256Generator`, not part of the header): `Initialize()`,
`Update(bytes)`, `GetHash(out[32 bytes])`, as pure functions on the generator's
state `σ`. -/
structure IHash256Generator (σ : Type) where
  Initialize : σ → σ
  Update : σ → List u8 → σ
  GetHash : σ → BlockHash

/-- Modelled from the spec: the hash generator factory
(`fssystem::IHash256GeneratorFactory`, not part of the header):
`Create() → HashGenerator`, together with the method table of the generators it
produces. -/
structure IHash256GeneratorFactory (σ : Type) where
  Create : σ
  generator : IHash256Generator σ

/-- A handle on the buffer manager (`fs::IBufferManager *`). -/
structure IBufferManager where
  id : Nat
  deriving DecidableEq, Repr

/-- The optional salt (`fs::HashSalt`): extra bytes folded into every hash. -/
structure HashSalt where
  value : List u8
  deriving DecidableEq, Repr

/-- The data members of `class IntegrityVerificationStorage`, in declaration
order. -/
structure IntegrityVerificationStorage (σ : Type) where
  m_hash_storage : SubStorage
  m_data_storage : SubStorage
  m_verification_block_size : Nat
  m_verification_block_order : Nat
  m_upper_layer_verification_block_size : Nat
  m_upper_layer_verification_block_order : Nat
  m_buffer_manager : IBufferManager
  m_salt : Option HashSalt
  m_is_real_data : Bool
  m_hash_generator_factory : IHash256GeneratorFactory σ
  m_is_writable : Bool
  m_allow_cleared_blocks : Bool

/-- Modelled from the spec: the lifecycle of the engine,
`Uninitialized → Ready → Finalized`.  A `Ready` engine holds its bound
sub-storages, configuration, factory, buffer manager and salt; the other two
states hold no references. -/
inductive Engine (σ : Type) where
  | Uninitialized
  | Ready (s : IntegrityVerificationStorage σ)
  | Finalized

namespace IntegrityVerificationStorage

variable {σ : Type}

/-- The index `HashSize - 1` of the last byte of a hash. -/
def lastIndex : Fin HashSize := ⟨HashSize - 1, by decide⟩

/-- The function `static void SetValidationBit(BlockHash *hash)`:
`hash->hash[HashSize - 1] |= 0x80;`. -/
def SetValidationBit (hash : BlockHash) : BlockHash :=
  { hash := Function.update hash.hash lastIndex (u8_or (hash.hash lastIndex) 0x80) }

/-- The function `static bool IsValidationBit(const BlockHash *hash)`:
`return (hash->hash[HashSize - 1] & 0x80) != 0;`. -/
def IsValidationBit (hash : BlockHash) : Bool :=
  u8_and (hash.hash lastIndex) 0x80 != 0

/-- The default constructor: block sizes zero, no buffer manager, no salt; the
engine is not yet bound to anything. -/
def new : Engine σ := Engine.Uninitialized

/-- The method `virtual Result SetSize(s64 size) override`:
`AMS_UNUSED(size); R_THROW(fs::ResultUnsupportedSetSizeForIntegrityVerificationStorage());`.
The call touches no member, so the engine is returned as it was. -/
def SetSize (e : Engine σ) (size : Int) : Result × Engine σ :=
  let _ := size
  (Result.ResultUnsupportedSetSizeForIntegrityVerificationStorage, e)

/-- The method `s64 GetBlockSize() const`: `return m_verification_block_size;`. -/
def GetBlockSize (s : IntegrityVerificationStorage σ) : Nat :=
  s.m_verification_block_size

/-- Modelled from the spec: the internal digest routine, the four-argument
`CalcBlockHash(out, buffer, block_size, generator)` that the header only declares:
feed the salt bytes (if present) then the block bytes into the generator, obtain
the digest, then force its validation marker bit to 1.  It is a `const` method
whose arguments are the buffer and the generator: it has no access path to the
sub-storages. -/
def CalcBlockHashWithGenerator (s : IntegrityVerificationStorage σ) (buffer : List u8)
    (block_size : Nat) (generator : σ) : BlockHash :=
  let G := s.m_hash_generator_factory.generator
  let salted := match s.m_salt with
    | some salt => G.Update generator salt.value
    | none => generator
  SetValidationBit (G.GetHash (G.Update salted (buffer.take block_size)))

/-- The public `void CalcBlockHash(BlockHash *out, const void *buffer, size_t block_size) const`:
`auto generator = m_hash_generator_factory->Create();
 return this->CalcBlockHash(out, buffer, block_size, generator);`. -/
def CalcBlockHash (s : IntegrityVerificationStorage σ) (buffer : List u8)
    (block_size : Nat) : BlockHash :=
  let generator := s.m_hash_generator_factory.Create
  s.CalcBlockHashWithGenerator buffer block_size generator

/-- The private `void CalcBlockHash(BlockHash *out, const void *buffer, generator) const`:
`return this->CalcBlockHash(out, buffer, static_cast<size_t>(m_verification_block_size), generator);`. -/
def CalcBlockHashOfBlock (s : IntegrityVerificationStorage σ) (buffer : List u8)
    (generator : σ) : BlockHash :=
  s.CalcBlockHashWithGenerator buffer s.m_verification_block_size generator

/-- Modelled from the spec: whether a configured block size is a positive power
of two (`Initialize` rejects any other value). -/
def IsPositivePowerOfTwo (n : Int) : Bool :=
  decide (0 < n) && decide (2 ^ Nat.log2 n.toNat = n.toNat)

/-- Modelled from the spec: `Initialize`, which the header only declares.  Fails
with `ConfigurationError` if a block size is not a positive power of two, if the
hash storage is smaller than `ceil(data_size / block_size) · 32` bytes, or if the
engine was initialised before; on success the engine is `Ready`. -/
def Initialize (e : Engine σ) (hs ds : SubStorage) (verif_block_size : Int)
    (upper_layer_verif_block_size : Int) (bm : IBufferManager)
    (hgf : IHash256GeneratorFactory σ) (salt : Option HashSalt)
    (is_real_data : Bool) (is_writable : Bool) (allow_cleared_blocks : Bool) :
    Result × Engine σ :=
  match e with
  | Engine.Uninitialized =>
    if IsPositivePowerOfTwo verif_block_size
        && IsPositivePowerOfTwo upper_layer_verif_block_size
        && decide (((ds.GetSize + verif_block_size.toNat - 1) / verif_block_size.toNat) * HashSize
            ≤ hs.GetSize) then
      (Result.Success, Engine.Ready
        { m_hash_storage := hs
          m_data_storage := ds
          m_verification_block_size := verif_block_size.toNat
          m_verification_block_order := Nat.log2 verif_block_size.toNat
          m_upper_layer_verification_block_size := upper_layer_verif_block_size.toNat
          m_upper_layer_verification_block_order := Nat.log2 upper_layer_verif_block_size.toNat
          m_buffer_manager := bm
          m_salt := salt
          m_is_real_data := is_real_data
          m_hash_generator_factory := hgf
          m_is_writable := is_writable
          m_allow_cleared_blocks := allow_cleared_blocks })
    else
      (Result.ConfigurationError, e)
  | _ => (Result.ConfigurationError, e)

/-- Modelled from the spec: `Finalize`, which the header only declares.  It
releases the references a `Ready` engine holds; no transition leaves
`Finalized`, and an engine that holds nothing has nothing to release. -/
def Finalize (e : Engine σ) : Engine σ :=
  match e with
  | Engine.Ready _ => Engine.Finalized
  | Engine.Uninitialized => Engine.Uninitialized
  | Engine.Finalized => Engine.Finalized

/-- The destructor `virtual ~IntegrityVerificationStorage() override`:
`this->Finalize();`.  The result is the state the object is left in. -/
def destroy (e : Engine σ) : Engine σ :=
  Finalize e

/-- Modelled from the spec: `GetSize`, which the header only declares: the data
storage's current size once `Ready`. -/
def GetSize (e : Engine σ) : Result × Nat :=
  match e with
  | Engine.Ready s => (Result.Success, s.m_data_storage.GetSize)
  | _ => (Result.ConfigurationError, 0)

/-- Modelled from the spec: `ReadBlockSignature`, which the header only declares.
Block `i` of the data is associated with the `i`-th 32-byte entry of hash storage,
at byte offset `i · 32`; the signatures of the data range `[offset, offset + size)`
are the entries of the blocks it covers. -/
def ReadBlockSignature (s : IntegrityVerificationStorage σ) (offset size : Nat) :
    Except Result (List u8) :=
  s.m_hash_storage.Read ((offset / s.m_verification_block_size) * HashSize)
    ((size / s.m_verification_block_size) * HashSize)

/-- Modelled from the spec: `WriteBlockSignature`, which the header only declares:
store the signatures of the data range `[offset, offset + size)` in the entries of
the blocks it covers. -/
def WriteBlockSignature (s : IntegrityVerificationStorage σ) (src : List u8)
    (offset size : Nat) : Except Result SubStorage :=
  s.m_hash_storage.Write ((offset / s.m_verification_block_size) * HashSize)
    (src.take ((size / s.m_verification_block_size) * HashSize))

/-- Modelled from the spec: `IsCleared`, which the header only declares: the
stored hash is exactly the all-zero sentinel (never written). -/
def IsCleared (_s : IntegrityVerificationStorage σ) (hash : BlockHash) : Bool :=
  decide (hash = BlockHash.zero)

/-- Modelled from the spec: `VerifyHash`, which the header only declares: compute
the candidate hash of the block (salt, block bytes, marker forced) and compare it
to the stored hash byte for byte. -/
def VerifyHash (s : IntegrityVerificationStorage σ) (buf : List u8) (hash : BlockHash)
    (generator : σ) : Result :=
  if s.CalcBlockHashOfBlock buf generator = hash then Result.Success
  else Result.DataCorrupted

/-- Modelled from the spec: the per-block part of `Read` (steps 1 to 5): fetch the
stored hash, read the raw block, verify it with a freshly created generator; on a
match return the data; on a mismatch apply the cleared-block exemption
(`is_real_data == false`, `allow_cleared_blocks == true`, raw block entirely
zero, stored hash the all-zero sentinel: zero-filled bytes), otherwise fail with
`DataCorrupted`. -/
def ReadBlock (s : IntegrityVerificationStorage σ) (offset : Nat) :
    Except Result (List u8) :=
  match s.ReadBlockSignature offset s.m_verification_block_size with
  | .error r => .error r
  | .ok signature =>
    match s.m_data_storage.Read offset s.m_verification_block_size with
    | .error r => .error r
    | .ok data =>
      let stored := BlockHash.ofBytes signature
      match s.VerifyHash data stored s.m_hash_generator_factory.Create with
      | Result.Success => .ok data
      | _ =>
        if !s.m_is_real_data && s.m_allow_cleared_blocks && data.all (fun b => b == 0)
            && s.IsCleared stored then
          .ok (List.replicate s.m_verification_block_size 0)
        else
          .error Result.DataCorrupted

/-- Modelled from the spec: the block loop of `Read` over `count` consecutive
blocks starting at `offset`.  The second component is what has been copied to the
caller's buffer: on failure the blocks verified before the failing one. -/
def ReadBlocks (s : IntegrityVerificationStorage σ) (offset : Nat) :
    Nat → Result × List u8
  | 0 => (Result.Success, [])
  | count + 1 =>
    match s.ReadBlock offset with
    | .error r => (r, [])
    | .ok block =>
      let rest := ReadBlocks s (offset + s.m_verification_block_size) count
      (rest.1, block ++ rest.2)

/-- Modelled from the spec: `Read(offset, buffer, size)`, which the header only
declares.  The precondition `0 ≤ offset` is carried by the type.  An engine that
is not `Ready` fails with `ConfigurationError`; a misaligned offset or size fails
with `InvalidArgument`; then every covered block is read and verified in order.
The second component is the content delivered to the caller's buffer. -/
def Read (e : Engine σ) (offset size : Nat) : Result × List u8 :=
  match e with
  | Engine.Ready s =>
    if offset % s.m_verification_block_size ≠ 0 ∨ size % s.m_verification_block_size ≠ 0 then
      (Result.InvalidArgument, [])
    else
      s.ReadBlocks offset (size / s.m_verification_block_size)
  | _ => (Result.ConfigurationError, [])

/-- Modelled from the spec: the per-block part of `Write`: compute the hash
exactly as `Read` does (validation bit forced), write the data to data storage,
then write the hash to hash storage.  A failing block leaves both storages as
they were. -/
def WriteBlock (s : IntegrityVerificationStorage σ) (offset : Nat) (block : List u8) :
    Except Result (IntegrityVerificationStorage σ) :=
  let hash := s.CalcBlockHashOfBlock block s.m_hash_generator_factory.Create
  match s.m_data_storage.Write offset block with
  | .error r => .error r
  | .ok ds =>
    match s.WriteBlockSignature hash.toBytes offset s.m_verification_block_size with
    | .error r => .error r
    | .ok hs => .ok { s with m_data_storage := ds, m_hash_storage := hs }

/-- Modelled from the spec: the block loop of `Write` over `count` consecutive
blocks starting at `offset`, taking the blocks from the front of `buffer`.  Blocks
written before a failing one stay committed. -/
def WriteBlocks (s : IntegrityVerificationStorage σ) (offset : Nat) (buffer : List u8) :
    Nat → Result × IntegrityVerificationStorage σ
  | 0 => (Result.Success, s)
  | count + 1 =>
    match s.WriteBlock offset (buffer.take s.m_verification_block_size) with
    | .error r => (r, s)
    | .ok s1 =>
      WriteBlocks s1 (offset + s.m_verification_block_size)
        (buffer.drop s.m_verification_block_size) count

/-- Modelled from the spec: `Write(offset, buffer, size)`, which the header only
declares.  An engine that is not `Ready` fails with `ConfigurationError`; a
non-writable one fails immediately with `PermissionDenied`; a misaligned offset or
size, or a buffer shorter than `size`, fails with `InvalidArgument`; then every
covered block is written in order. -/
def Write (e : Engine σ) (offset : Nat) (buffer : List u8) (size : Nat) :
    Result × Engine σ :=
  match e with
  | Engine.Ready s =>
    if !s.m_is_writable then
      (Result.PermissionDenied, e)
    else if offset % s.m_verification_block_size ≠ 0 ∨ size % s.m_verification_block_size ≠ 0
        ∨ buffer.length < size then
      (Result.InvalidArgument, e)
    else
      let r := s.WriteBlocks offset buffer (size / s.m_verification_block_size)
      (r.1, Engine.Ready r.2)
  | _ => (Result.ConfigurationError, e)

end IntegrityVerificationStorage

/-- A toy generator whose state is the list of bytes fed so far and whose digest
is the first 32 of them, padded with zeroes. -/
def truncatingGenerator : IHash256Generator (List u8) :=
  { Initialize := fun _ => []
    Update := fun g bytes => g ++ bytes
    GetHash := fun g => BlockHash.ofBytes g }

/-- The factory of `truncatingGenerator`. -/
def truncatingFactory : IHash256GeneratorFactory (List u8) :=
  { Create := []
    generator := truncatingGenerator }

/-! ## Auxiliary predicates and sample inputs -/

namespace IntegrityVerificationStorage

variable {σ : Type}

/-- The block `blk` at data offset `o` is stored together with its hash entry. -/
def Stored (s : IntegrityVerificationStorage σ) (o : Nat) (blk : List u8) : Prop :=
  s.m_data_storage.Read o s.m_verification_block_size = .ok blk
    ∧ s.ReadBlockSignature o s.m_verification_block_size
        = .ok (s.CalcBlockHashOfBlock blk s.m_hash_generator_factory.Create).toBytes

/-- The two engines differ in their storages only. -/
def SameConfig (s s' : IntegrityVerificationStorage σ) : Prop :=
  ∃ ds hs, s' = { s with m_data_storage := ds, m_hash_storage := hs }

end IntegrityVerificationStorage

/-- A writable engine over two zero-filled in-memory storages of `count` blocks,
with the toy generator and no salt. -/
def sampleStorage (block_size order count : Nat) (is_real_data allow_cleared_blocks : Bool) :
    IntegrityVerificationStorage (List u8) :=
  { m_hash_storage := { bytes := List.replicate (HashSize * count) 0 }
    m_data_storage := { bytes := List.replicate (block_size * count) 0 }
    m_verification_block_size := block_size
    m_verification_block_order := order
    m_upper_layer_verification_block_size := 32
    m_upper_layer_verification_block_order := 5
    m_buffer_manager := { id := 0 }
    m_salt := none
    m_is_real_data := is_real_data
    m_hash_generator_factory := truncatingFactory
    m_is_writable := true
    m_allow_cleared_blocks := allow_cleared_blocks }

/-! ## Bit-level facts about the validation marker -/

namespace IntegrityVerificationStorage

set_option maxRecDepth 100000 in
theorem u8_or_marker_and (b : u8) : (u8_and (u8_or b 0x80) 0x80 != 0) = true := by
  revert b; decide

set_option maxRecDepth 100000 in
theorem u8_marker_iff (b : u8) : (u8_and b 0x80 != 0) = true ↔ u8_or b 0x80 = b := by
  revert b; decide

set_option maxRecDepth 100000 in
theorem u8_or_marker_val (b : u8) : (u8_or b 0x80).val = b.val ||| 0x80 := by
  revert b; decide

set_option maxRecDepth 100000 in
theorem u8_or_marker_low (b : u8) : (u8_or b 0x80).val % 128 = b.val % 128 := by
  revert b; decide

set_option maxRecDepth 100000 in
theorem u8_or_marker_top (b : u8) : (u8_or b 0x80).val &&& 0x80 = 0x80 := by
  revert b; decide

set_option maxRecDepth 100000 in
theorem u8_or_marker_ne_zero (b : u8) : u8_or b 0x80 ≠ 0 := by
  revert b; decide

set_option maxRecDepth 100000 in
theorem u8_or_marker_idem (b : u8) : u8_or (u8_or b 0x80) 0x80 = u8_or b 0x80 := by
  revert b; decide

set_option maxRecDepth 100000 in
theorem u8_or_marker_testBit (b : u8) (k : Fin 8) :
    (u8_or b 0x80).val.testBit k.val = (decide (k.val = 7) || b.val.testBit k.val) := by
  revert b k; decide

theorem SetValidationBit_last (h : BlockHash) :
    (SetValidationBit h).hash lastIndex = u8_or (h.hash lastIndex) 0x80 := by
  simp [SetValidationBit]

theorem SetValidationBit_other (h : BlockHash) (i : Fin HashSize) (hi : i ≠ lastIndex) :
    (SetValidationBit h).hash i = h.hash i := by
  simp [SetValidationBit, Function.update_noteq hi]

theorem lastIndex_val : lastIndex.val = 31 := rfl

theorem ne_lastIndex_iff (i : Fin HashSize) : i ≠ lastIndex ↔ i.val ≠ 31 := by
  rw [Ne, Fin.ext_iff, lastIndex_val]

/-- A marker-forced hash carries the marker. -/
theorem IsValidationBit_SetValidationBit (h : BlockHash) :
    IsValidationBit (SetValidationBit h) = true := by
  unfold IsValidationBit
  rw [SetValidationBit_last]
  exact u8_or_marker_and _

/-- A marker-forced hash is never the all-zero sentinel. -/
theorem SetValidationBit_ne_zero (h : BlockHash) : SetValidationBit h ≠ BlockHash.zero := by
  intro hz
  have := congrArg (fun x => x.hash lastIndex) hz
  simp only [SetValidationBit_last, BlockHash.zero] at this
  exact u8_or_marker_ne_zero _ this

/-- C4: every hash whose validation marker has been forced has the top bit (0x80)
of its last byte (index `HashSize - 1 = 31`) set: `IsValidationBit` holds of
`SetValidationBit h` for every `BlockHash h`. -/
theorem C4_validation_bit_invariant (h : BlockHash) :
    IsValidationBit (SetValidationBit h) = true
      ∧ ((SetValidationBit h).hash ⟨31, by decide⟩).val &&& 0x80 = 0x80 := by
  refine ⟨IsValidationBit_SetValidationBit h, ?_⟩
  have : (⟨31, by decide⟩ : Fin HashSize) = lastIndex := rfl
  rw [this, SetValidationBit_last]
  exact u8_or_marker_top _

/-- C5: a marker-forced hash is never the all-zero `BlockHash`, and the all-zero
`BlockHash` does not carry the marker, so "written" and "never written" entries
are always distinguishable. -/
theorem C5_sentinel_never_produced (h : BlockHash) :
    SetValidationBit h ≠ BlockHash.zero ∧ IsValidationBit BlockHash.zero = false :=
  ⟨SetValidationBit_ne_zero h, by decide⟩

/-- C9: `SetValidationBit` changes only the validation marker: every byte other
than the last is unchanged, the last byte becomes `h[31] OR 0x80`, its low seven
bits are preserved, and bit by bit every one of the 256 digest bits keeps its
value except bit 7 of byte 31, which is set. -/
theorem C9_SetValidationBit_frame (h : BlockHash) :
    (∀ i : Fin HashSize,
        (SetValidationBit h).hash i
          = if i.val = 31 then u8_or (h.hash i) 0x80 else h.hash i)
      ∧ ((SetValidationBit h).hash ⟨31, by decide⟩).val
          = (h.hash ⟨31, by decide⟩).val ||| 0x80
      ∧ ((SetValidationBit h).hash ⟨31, by decide⟩).val % 128
          = (h.hash ⟨31, by decide⟩).val % 128
      ∧ (∀ (i : Fin HashSize) (k : Fin 8),
          ((SetValidationBit h).hash i).val.testBit k.val
            = (decide (i.val = 31 ∧ k.val = 7) || ((h.hash i).val.testBit k.val))) := by
  have hl : (⟨31, by decide⟩ : Fin HashSize) = lastIndex := rfl
  refine ⟨?_, ?_, ?_, ?_⟩
  · intro i
    by_cases hi : i.val = 31
    · have : i = lastIndex := Fin.ext hi
      subst this
      simp [SetValidationBit_last, lastIndex_val]
    · rw [SetValidationBit_other h i ((ne_lastIndex_iff i).2 hi), if_neg hi]
  · rw [hl, SetValidationBit_last]; exact u8_or_marker_val _
  · rw [hl, SetValidationBit_last]; exact u8_or_marker_low _
  · intro i k
    by_cases hi : i.val = 31
    · have : i = lastIndex := Fin.ext hi
      subst this
      rw [SetValidationBit_last, u8_or_marker_testBit]
      simp [lastIndex_val]
    · rw [SetValidationBit_other h i ((ne_lastIndex_iff i).2 hi)]
      simp [hi]

/-- C10: `IsValidationBit` characterises the fixed points of `SetValidationBit`
(`IsValidationBit h` iff `SetValidationBit h = h`), and `SetValidationBit` is
idempotent. -/
theorem C10_IsValidationBit_fixed_points (h : BlockHash) :
    (IsValidationBit h = true ↔ SetValidationBit h = h)
      ∧ SetValidationBit (SetValidationBit h) = SetValidationBit h := by
  constructor
  · unfold IsValidationBit
    rw [u8_marker_iff]
    constructor
    · intro hb
      apply BlockHash.ext
      funext i
      by_cases hi : i = lastIndex
      · subst hi; rw [SetValidationBit_last, hb]
      · exact SetValidationBit_other h i hi
    · intro hs
      have := congrArg (fun x => x.hash lastIndex) hs
      simpa only [SetValidationBit_last] using this
  · apply BlockHash.ext
    funext i
    by_cases hi : i = lastIndex
    · subst hi
      rw [SetValidationBit_last, SetValidationBit_last, u8_or_marker_idem]
    · rw [SetValidationBit_other _ i hi]

end IntegrityVerificationStorage

/-! ## The in-memory sub-storage -/

namespace SubStorage

theorem Read_eq_ok {s : SubStorage} {o n : Nat} (h : o + n ≤ s.bytes.length) :
    s.Read o n = .ok ((s.bytes.drop o).take n) := by
  simp [Read, h]

theorem Read_ok_bound {s : SubStorage} {o n : Nat} {l : List u8} (h : s.Read o n = .ok l) :
    o + n ≤ s.bytes.length ∧ l = (s.bytes.drop o).take n := by
  unfold Read at h
  split at h
  · rename_i hb
    injection h with h
    exact ⟨hb, h.symm⟩
  · cases h

theorem Read_ok_length {s : SubStorage} {o n : Nat} {l : List u8} (h : s.Read o n = .ok l) :
    l.length = n := by
  obtain ⟨hb, rfl⟩ := Read_ok_bound h
  simp; omega

theorem Write_ok_bound {s s' : SubStorage} {o : Nat} {d : List u8} (h : s.Write o d = .ok s') :
    o + d.length ≤ s.bytes.length
      ∧ s'.bytes = s.bytes.take o ++ d ++ s.bytes.drop (o + d.length) := by
  unfold Write at h
  split at h
  · rename_i hb
    injection h with h
    exact ⟨hb, by rw [← h]⟩
  · cases h

theorem Write_ok_length {s s' : SubStorage} {o : Nat} {d : List u8} (h : s.Write o d = .ok s') :
    s'.bytes.length = s.bytes.length := by
  obtain ⟨hb, he⟩ := Write_ok_bound h
  rw [he]; simp; omega

theorem Read_Write_same {s s' : SubStorage} {o : Nat} {d : List u8} (h : s.Write o d = .ok s') :
    s'.Read o d.length = .ok d := by
  obtain ⟨hb, he⟩ := Write_ok_bound h
  have hl := Write_ok_length h
  rw [Read_eq_ok (by omega), he]
  have h1 : (s.bytes.take o).length = o := by simp; omega
  rw [List.append_assoc, List.drop_left' h1, List.take_left' rfl]

theorem Read_Write_disjoint {s s' : SubStorage} {o : Nat} {d : List u8}
    (h : s.Write o d = .ok s') (o2 n : Nat) (hd : o2 + n ≤ o ∨ o + d.length ≤ o2) :
    s'.Read o2 n = s.Read o2 n := by
  obtain ⟨hb, he⟩ := Write_ok_bound h
  have hl := Write_ok_length h
  unfold Read
  rw [hl]
  split
  · rename_i hr
    congr 1
    apply List.ext_getElem
    · simp; omega
    · intro i h1 h2
      simp only [List.getElem_take, List.getElem_drop]
      simp only [he]
      have h1' : i < n := by simp at h1; omega
      rcases hd with hd | hd
      · rw [List.getElem_append_left (by simp; omega), List.getElem_append_left (by simp; omega)]
        simp
      · rw [List.getElem_append_right (by simp; omega)]
        simp only [List.getElem_drop]
        congr 1
        simp
        omega
  · rfl

end SubStorage

/-! ## Writing and reading back blocks -/

theorem BlockHash.toBytes_length (h : BlockHash) : h.toBytes.length = HashSize := by
  simp [BlockHash.toBytes]

theorem BlockHash.ofBytes_toBytes (h : BlockHash) : BlockHash.ofBytes h.toBytes = h := by
  apply BlockHash.ext
  funext i
  simp [BlockHash.ofBytes, BlockHash.toBytes, List.getD_eq_getElem?_getD, i.isLt]

namespace IntegrityVerificationStorage
variable {σ : Type}

theorem IsValidationBit_CalcBlockHashWithGenerator (s : IntegrityVerificationStorage σ)
    (buffer : List u8) (n : Nat) (g : σ) :
    IsValidationBit (s.CalcBlockHashWithGenerator buffer n g) = true := by
  unfold CalcBlockHashWithGenerator
  exact IsValidationBit_SetValidationBit _

theorem CalcBlockHashOfBlock_ne_zero (s : IntegrityVerificationStorage σ)
    (buffer : List u8) (g : σ) : s.CalcBlockHashOfBlock buffer g ≠ BlockHash.zero := by
  unfold CalcBlockHashOfBlock CalcBlockHashWithGenerator
  exact SetValidationBit_ne_zero _

theorem CalcBlockHashOfBlock_withStorages (s : IntegrityVerificationStorage σ)
    (hs ds : SubStorage) (buffer : List u8) (g : σ) :
    CalcBlockHashOfBlock { s with m_hash_storage := hs, m_data_storage := ds } buffer g
      = s.CalcBlockHashOfBlock buffer g := rfl

/-- What a successful `WriteBlock` leaves behind. -/
theorem WriteBlock_ok {s s1 : IntegrityVerificationStorage σ} {o : Nat} {blk : List u8}
    (h : s.WriteBlock o blk = .ok s1) :
    ∃ ds hs, s.m_data_storage.Write o blk = .ok ds
      ∧ s.m_hash_storage.Write ((o / s.m_verification_block_size) * HashSize)
          ((s.CalcBlockHashOfBlock blk s.m_hash_generator_factory.Create).toBytes.take
            ((s.m_verification_block_size / s.m_verification_block_size) * HashSize)) = .ok hs
      ∧ s1 = { s with m_data_storage := ds, m_hash_storage := hs } := by
  unfold WriteBlock at h
  simp only at h
  split at h
  · cases h
  · rename_i ds hds
    split at h
    · cases h
    · rename_i hs hhs
      injection h with h
      exact ⟨ds, hs, hds, hhs, h.symm⟩

theorem WriteBlock_Stored {s s1 : IntegrityVerificationStorage σ} {o : Nat} {blk : List u8}
    (hB : 0 < s.m_verification_block_size) (hlen : blk.length = s.m_verification_block_size)
    (h : s.WriteBlock o blk = .ok s1) : Stored s1 o blk := by
  obtain ⟨ds, hs, hds, hhs, rfl⟩ := WriteBlock_ok h
  rw [Nat.div_self hB, Nat.one_mul] at hhs
  have ht : ∀ x : BlockHash, x.toBytes.take HashSize = x.toBytes := fun x => by
    rw [List.take_of_length_le (by rw [BlockHash.toBytes_length])]
  rw [ht] at hhs
  constructor
  · have := SubStorage.Read_Write_same hds
    rw [hlen] at this
    exact this
  · have := SubStorage.Read_Write_same hhs
    rw [BlockHash.toBytes_length] at this
    simp only [ReadBlockSignature, Nat.div_self hB, Nat.one_mul]
    exact this

theorem WriteBlock_frame {s s1 : IntegrityVerificationStorage σ} {o : Nat} {blk : List u8}
    (hB : 0 < s.m_verification_block_size)
    (h : s.WriteBlock o blk = .ok s1) (o0 : Nat) (blk0 : List u8)
    (hd : o0 + s.m_verification_block_size ≤ o) (h0 : Stored s o0 blk0) : Stored s1 o0 blk0 := by
  obtain ⟨ds, hs, hds, hhs, rfl⟩ := WriteBlock_ok h
  rw [Nat.div_self hB, Nat.one_mul] at hhs
  obtain ⟨h01, h02⟩ := h0
  constructor
  · show ds.Read o0 s.m_verification_block_size = _
    rw [SubStorage.Read_Write_disjoint hds _ _ (Or.inl hd)]
    exact h01
  · show hs.Read _ _ = _
    simp only [ReadBlockSignature, Nat.div_self hB, Nat.one_mul] at h02 ⊢
    have hq : o0 / s.m_verification_block_size + 1 ≤ o / s.m_verification_block_size := by
      have := Nat.div_le_div_right (c := s.m_verification_block_size) hd
      rwa [Nat.add_div_right _ hB] at this
    rw [SubStorage.Read_Write_disjoint hhs _ _ (Or.inl (by
      have := Nat.mul_le_mul_right HashSize hq
      rw [Nat.add_mul] at this
      simpa using this))]
    exact h02

end IntegrityVerificationStorage

namespace IntegrityVerificationStorage
variable {σ : Type}

theorem SubStorage_Write_error {s : SubStorage} {o : Nat} {d : List u8} {r : Result}
    (h : s.Write o d = .error r) : r = Result.UnderlyingStorageError := by
  unfold SubStorage.Write at h
  split at h
  · cases h
  · injection h with h; exact h.symm

theorem SubStorage_Read_error {s : SubStorage} {o n : Nat} {r : Result}
    (h : s.Read o n = .error r) : r = Result.UnderlyingStorageError := by
  unfold SubStorage.Read at h
  split at h
  · cases h
  · injection h with h; exact h.symm

theorem WriteBlock_error {s : IntegrityVerificationStorage σ} {o : Nat} {blk : List u8}
    {r : Result} (h : s.WriteBlock o blk = .error r) : r = Result.UnderlyingStorageError := by
  unfold WriteBlock at h
  simp only at h
  split at h
  · rename_i r' hr
    injection h with h
    subst h
    exact SubStorage_Write_error hr
  · split at h
    · rename_i r' hr
      injection h with h
      subst h
      exact SubStorage_Write_error hr
    · cases h

theorem SameConfig.block_size {s s' : IntegrityVerificationStorage σ} (h : SameConfig s s') :
    s'.m_verification_block_size = s.m_verification_block_size := by
  obtain ⟨ds, hs, rfl⟩ := h; rfl

theorem SameConfig.trans {s s1 s2 : IntegrityVerificationStorage σ} (h1 : SameConfig s s1)
    (h2 : SameConfig s1 s2) : SameConfig s s2 := by
  obtain ⟨ds, hs, rfl⟩ := h1
  obtain ⟨ds', hs', rfl⟩ := h2
  exact ⟨ds', hs', rfl⟩

theorem WriteBlock_SameConfig {s s1 : IntegrityVerificationStorage σ} {o : Nat} {blk : List u8}
    (h : s.WriteBlock o blk = .ok s1) : SameConfig s s1 := by
  obtain ⟨ds, hs, _, _, rfl⟩ := WriteBlock_ok h
  exact ⟨ds, hs, rfl⟩

theorem WriteBlocks_spec (B : Nat) (hB : 0 < B) (count : Nat) :
    ∀ (s s' : IntegrityVerificationStorage σ) (o : Nat) (buffer : List u8),
      s.m_verification_block_size = B → count * B ≤ buffer.length →
      s.WriteBlocks o buffer count = (Result.Success, s') →
      SameConfig s s'
        ∧ (∀ o0 blk0, o0 + B ≤ o → Stored s o0 blk0 → Stored s' o0 blk0)
        ∧ (∀ k, k < count → Stored s' (o + k * B) ((buffer.drop (k * B)).take B)) := by
  induction count with
  | zero =>
    intro s s' o buffer _ _ h
    simp only [WriteBlocks] at h
    injection h with _ h
    subst h
    exact ⟨⟨s.m_data_storage, s.m_hash_storage, rfl⟩, fun _ _ _ h => h, fun k hk => by omega⟩
  | succ n ih =>
    intro s s' o buffer hs hlen h
    rw [WriteBlocks] at h
    have hlen' : B ≤ buffer.length ∧ n * B ≤ buffer.length - B := by
      rw [Nat.add_mul, Nat.one_mul] at hlen; omega
    split at h
    · rename_i r hr
      have := WriteBlock_error hr
      injection h with h1 h2
      rw [this] at h1
      cases h1
    · rename_i s1 hs1
      have htake : (buffer.take s.m_verification_block_size).length
          = s.m_verification_block_size := by
        rw [List.length_take, hs]; omega
      have hSt := WriteBlock_Stored (hs ▸ hB) htake hs1
      have hFr := WriteBlock_frame (hs ▸ hB) hs1
      have hsc1 := WriteBlock_SameConfig hs1
      have hs1B : s1.m_verification_block_size = B := by rw [hsc1.block_size, hs]
      rw [hs] at h hSt hFr
      obtain ⟨hsc, hframe, hblocks⟩ := ih s1 s' (o + B) (buffer.drop B) hs1B
        (by rw [List.length_drop]; omega) h
      refine ⟨hsc1.trans hsc, ?_, ?_⟩
      · intro o0 blk0 ho0 hst0
        exact hframe o0 blk0 (by omega) (hFr o0 blk0 ho0 hst0)
      · intro k hk
        cases k with
        | zero =>
          simp only [Nat.zero_mul, Nat.add_zero, List.drop_zero]
          exact hframe o _ (Nat.le_refl _) hSt
        | succ k =>
          have := hblocks k (by omega)
          rw [List.drop_drop] at this
          have e1 : o + B + k * B = o + (k + 1) * B := by rw [Nat.add_mul]; omega
          have e2 : B + k * B = (k + 1) * B := by rw [Nat.add_mul]; omega
          rw [e1, e2] at this
          exact this

end IntegrityVerificationStorage

namespace IntegrityVerificationStorage
variable {σ : Type}

/-- The value of `ReadBlock` once both storage reads have succeeded. -/
theorem ReadBlock_eq {s : IntegrityVerificationStorage σ} {o : Nat} {signature data : List u8}
    (hsig : s.ReadBlockSignature o s.m_verification_block_size = .ok signature)
    (hdata : s.m_data_storage.Read o s.m_verification_block_size = .ok data) :
    s.ReadBlock o =
      if s.CalcBlockHashOfBlock data s.m_hash_generator_factory.Create
          = BlockHash.ofBytes signature then .ok data
      else if (!s.m_is_real_data && s.m_allow_cleared_blocks && data.all (fun b => b == 0)
          && s.IsCleared (BlockHash.ofBytes signature)) = true then
        .ok (List.replicate s.m_verification_block_size 0)
      else .error Result.DataCorrupted := by
  unfold ReadBlock
  rw [hsig, hdata]
  simp only [VerifyHash]
  by_cases hc : s.CalcBlockHashOfBlock data s.m_hash_generator_factory.Create
      = BlockHash.ofBytes signature
  · simp [hc]
  · simp only [hc, if_false]

theorem ReadBlock_of_Stored {s : IntegrityVerificationStorage σ} {o : Nat} {blk : List u8}
    (h : Stored s o blk) : s.ReadBlock o = .ok blk := by
  rw [ReadBlock_eq h.2 h.1, BlockHash.ofBytes_toBytes, if_pos rfl]

theorem ReadBlocks_of_Stored (B : Nat) (count : Nat) :
    ∀ (s : IntegrityVerificationStorage σ) (o : Nat) (buffer : List u8),
      s.m_verification_block_size = B → count * B ≤ buffer.length →
      (∀ k, k < count → Stored s (o + k * B) ((buffer.drop (k * B)).take B)) →
      s.ReadBlocks o count = (Result.Success, buffer.take (count * B)) := by
  induction count with
  | zero =>
    intro s o buffer _ _ _
    simp [ReadBlocks]
  | succ n ih =>
    intro s o buffer hs hlen hst
    rw [ReadBlocks]
    have h0 := hst 0 (by omega)
    simp only [Nat.zero_mul, Nat.add_zero, List.drop_zero] at h0
    rw [ReadBlock_of_Stored h0]
    have hlen' : B ≤ buffer.length ∧ n * B ≤ buffer.length - B := by
      rw [Nat.add_mul, Nat.one_mul] at hlen; omega
    have := ih s (o + B) (buffer.drop B) hs (by rw [List.length_drop]; omega) (by
      intro k hk
      have := hst (k + 1) (by omega)
      rw [List.drop_drop]
      have e1 : o + B + k * B = o + (k + 1) * B := by rw [Nat.add_mul]; omega
      have e2 : B + k * B = (k + 1) * B := by rw [Nat.add_mul]; omega
      rw [e1, e2]
      exact this)
    rw [hs, this]
    simp only
    have e3 : (n + 1) * B = B + n * B := by rw [Nat.add_mul]; omega
    rw [e3, List.take_add]

/-- What a successful `Write` establishes. -/
theorem Write_ok {e e' : Engine σ} {offset size : Nat} {buffer : List u8}
    (h : Write e offset buffer size = (Result.Success, e')) :
    ∃ s s', e = Engine.Ready s ∧ e' = Engine.Ready s' ∧ s.m_is_writable = true
      ∧ offset % s.m_verification_block_size = 0 ∧ size % s.m_verification_block_size = 0
      ∧ size ≤ buffer.length
      ∧ s.WriteBlocks offset buffer (size / s.m_verification_block_size)
          = (Result.Success, s') := by
  cases e with
  | Uninitialized => simp [Write] at h
  | Finalized => simp [Write] at h
  | Ready s =>
    simp only [Write] at h
    split at h
    · simp at h
    · rename_i hw
      split at h
      · simp at h
      · rename_i ha
        simp only [not_or, Decidable.not_not, Nat.not_lt] at ha
        injection h with h1 h2
        refine ⟨s, _, rfl, h2.symm, by simpa using hw, ha.1, ha.2.1, ha.2.2, ?_⟩
        exact Prod.ext h1 rfl

end IntegrityVerificationStorage

/-! ## The claims about `Read`, `Write`, `SetSize`, `CalcBlockHash` and `Finalize` -/

theorem BlockHash.ofBytes_replicate_zero :
    BlockHash.ofBytes (List.replicate HashSize 0) = BlockHash.zero := by
  apply BlockHash.ext
  funext i
  simp [BlockHash.ofBytes, BlockHash.zero, List.getD_eq_getElem?_getD, List.getElem?_replicate]

namespace IntegrityVerificationStorage
variable {σ : Type}

theorem Read_single_block (s : IntegrityVerificationStorage σ) (o : Nat)
    (hB : 0 < s.m_verification_block_size) (ha : o % s.m_verification_block_size = 0) :
    Read (Engine.Ready s) o s.m_verification_block_size
      = match s.ReadBlock o with
        | .error r => (r, [])
        | .ok block => (Result.Success, block) := by
  simp only [Read, ha, Nat.mod_self, ne_eq, not_true_eq_false, or_self, if_false,
    Nat.div_self hB, ReadBlocks]
  cases s.ReadBlock o <;> simp

/-- C1: a successful `Write(offset, data, size)` followed by `Read(offset, buf, size)`
on the resulting engine (same configuration, storages untouched in between)
succeeds and returns exactly the `size` bytes that were written. -/
theorem C1_write_read_round_trip (e e' : Engine σ) (offset size : Nat) (buffer : List u8)
    (hW : Write e offset buffer size = (Result.Success, e')) :
    Read e' offset size = (Result.Success, buffer.take size) := by
  obtain ⟨s, s', rfl, rfl, _, ho, hsz, hlen, hWB⟩ := Write_ok hW
  rcases Nat.eq_zero_or_pos s.m_verification_block_size with hB | hB
  · rw [hB] at ho hsz hWB
    rw [Nat.mod_zero] at ho hsz
    subst ho hsz
    simp only [Nat.zero_div, WriteBlocks] at hWB
    injection hWB with _ h2
    subst h2
    simp [Read, hB, ReadBlocks]
  · have hcount : size / s.m_verification_block_size * s.m_verification_block_size = size :=
      Nat.div_mul_cancel (Nat.dvd_of_mod_eq_zero hsz)
    obtain ⟨hsc, _, hblocks⟩ := WriteBlocks_spec s.m_verification_block_size hB
      (size / s.m_verification_block_size) s s' offset buffer rfl (by rw [hcount]; exact hlen) hWB
    have hB' := hsc.block_size
    have := ReadBlocks_of_Stored s.m_verification_block_size
      (size / s.m_verification_block_size) s' offset buffer hB' (by rw [hcount]; exact hlen) hblocks
    rw [hcount] at this
    simp only [Read, hB', ho, hsz, ne_eq, not_true_eq_false, or_self, if_false]
    exact this

end IntegrityVerificationStorage

namespace IntegrityVerificationStorage
variable {σ : Type}

/-- Every engine `Initialize` makes `Ready` has a positive verification block
size and a hash storage with one entry per data block. -/
theorem Initialize_ok {e e' : Engine σ} {hs ds : SubStorage} {vbs ubs : Int}
    {bm : IBufferManager} {hgf : IHash256GeneratorFactory σ} {salt : Option HashSalt}
    {rd wr ac : Bool}
    (h : Initialize e hs ds vbs ubs bm hgf salt rd wr ac = (Result.Success, e')) :
    ∃ s, e' = Engine.Ready s ∧ 0 < s.m_verification_block_size
      ∧ s.m_hash_storage = hs ∧ s.m_data_storage = ds
      ∧ ((ds.GetSize + s.m_verification_block_size - 1) / s.m_verification_block_size)
          * HashSize ≤ hs.GetSize := by
  cases e with
  | Ready s => simp [Initialize] at h
  | Finalized => simp [Initialize] at h
  | Uninitialized =>
    simp only [Initialize] at h
    split at h
    · rename_i hc
      simp only [Bool.and_eq_true, decide_eq_true_eq, IsPositivePowerOfTwo] at hc
      injection h with _ h2
      refine ⟨_, h2.symm, ?_, rfl, rfl, hc.2⟩
      show 0 < vbs.toNat
      have := hc.1.1.1
      omega
    · simp at h

/-- C3: with `is_real_data = false`, a block whose data is all zero and whose
stored hash entry is the all-zero sentinel reads as all-zero bytes without error
when `allow_cleared_blocks = true`, and fails with `DataCorrupted` in the
otherwise identical state with `allow_cleared_blocks = false`. -/
theorem C3_cleared_block_exemption (s : IntegrityVerificationStorage σ) (offset : Nat)
    (hB : 0 < s.m_verification_block_size)
    (halign : offset % s.m_verification_block_size = 0)
    (hreal : s.m_is_real_data = false)
    (hdata : s.m_data_storage.Read offset s.m_verification_block_size
      = .ok (List.replicate s.m_verification_block_size 0))
    (hhash : s.ReadBlockSignature offset s.m_verification_block_size
      = .ok (List.replicate HashSize 0)) :
    Read (Engine.Ready { s with m_allow_cleared_blocks := true }) offset
        s.m_verification_block_size
      = (Result.Success, List.replicate s.m_verification_block_size 0)
    ∧ Read (Engine.Ready { s with m_allow_cleared_blocks := false }) offset
        s.m_verification_block_size
      = (Result.DataCorrupted, []) := by
  have hne : ∀ t : IntegrityVerificationStorage σ,
      t.CalcBlockHashOfBlock (List.replicate s.m_verification_block_size 0)
        t.m_hash_generator_factory.Create ≠ BlockHash.ofBytes (List.replicate HashSize 0) := by
    intro t
    rw [BlockHash.ofBytes_replicate_zero]
    exact CalcBlockHashOfBlock_ne_zero _ _ _
  constructor
  · have hread := Read_single_block { s with m_allow_cleared_blocks := true } offset hB halign
    have hblk := ReadBlock_eq (s := { s with m_allow_cleared_blocks := true }) hhash hdata
    rw [if_neg (hne _), if_pos (by
      simp [IsCleared, hreal, BlockHash.ofBytes_replicate_zero])] at hblk
    rw [hblk] at hread
    exact hread
  · have hread := Read_single_block { s with m_allow_cleared_blocks := false } offset hB halign
    have hblk := ReadBlock_eq (s := { s with m_allow_cleared_blocks := false }) hhash hdata
    rw [if_neg (hne _), if_neg (by simp)] at hblk
    rw [hblk] at hread
    exact hread

/-- C6: `SetSize` always fails: for every requested size and every engine state it
returns `ResultUnsupportedSetSizeForIntegrityVerificationStorage`, never success,
and leaves the engine as it was. -/
theorem C6_SetSize_always_fails (e : Engine σ) (size : Int) :
    (SetSize e size).1 = Result.ResultUnsupportedSetSizeForIntegrityVerificationStorage
      ∧ (SetSize e size).1 ≠ Result.Success
      ∧ (SetSize e size).2 = e := by
  refine ⟨rfl, ?_, rfl⟩
  simp [SetSize]

/-- C7: the public `CalcBlockHash(out, buffer, size)` returns what the internal
digest routine returns when run with a generator freshly obtained from the factory's
`Create()`, and its result does not depend on the contents of the data storage or
the hash storage (being `const` and returning only the hash, it writes neither). -/
theorem C7_CalcBlockHash_wrapper (s : IntegrityVerificationStorage σ) (buffer : List u8)
    (block_size : Nat) :
    s.CalcBlockHash buffer block_size
        = s.CalcBlockHashWithGenerator buffer block_size s.m_hash_generator_factory.Create
      ∧ ∀ hs ds : SubStorage,
          CalcBlockHash { s with m_hash_storage := hs, m_data_storage := ds } buffer block_size
            = s.CalcBlockHash buffer block_size :=
  ⟨rfl, fun _ _ => rfl⟩

/-- C8: `Finalize` is idempotent: for every engine state, `Finalize` followed by
`Finalize`, or by the destructor (which invokes `Finalize`), leaves the engine in
the same state as a single `Finalize`. -/
theorem C8_Finalize_idempotent (e : Engine σ) :
    Finalize (Finalize e) = Finalize e ∧ destroy (Finalize e) = Finalize e := by
  cases e <;> exact ⟨rfl, rfl⟩

end IntegrityVerificationStorage

namespace IntegrityVerificationStorage

/-- Instance of C1: writing `1, 2, 3, 4` over both blocks of a two-block engine
succeeds and reading the range back returns the same four bytes. -/
theorem C1_write_read_round_trip_witness :
    (Write (Engine.Ready (sampleStorage 2 1 2 true false)) 0 [1, 2, 3, 4] 4).1 = Result.Success
      ∧ Read (Write (Engine.Ready (sampleStorage 2 1 2 true false)) 0 [1, 2, 3, 4] 4).2 0 4
          = (Result.Success, [1, 2, 3, 4]) :=
  ⟨by decide,
    C1_write_read_round_trip (Engine.Ready (sampleStorage 2 1 2 true false)) _ 0 4 [1, 2, 3, 4]
      (Prod.ext (by decide) rfl)⟩

/-- Instance of C3: block 1 of a fresh two-block engine that does not hold real
data is all zero with an all-zero hash entry; it reads as zeroes when cleared
blocks are allowed and fails with `DataCorrupted` when they are not. -/
theorem C3_cleared_block_exemption_witness :
    (sampleStorage 2 1 2 false false).m_is_real_data = false
      ∧ Read (Engine.Ready (sampleStorage 2 1 2 false true)) 2 2 = (Result.Success, [0, 0])
      ∧ Read (Engine.Ready (sampleStorage 2 1 2 false false)) 2 2
          = (Result.DataCorrupted, []) :=
  ⟨rfl,
    C3_cleared_block_exemption (sampleStorage 2 1 2 false false) 2 (by decide) (by decide) rfl
      rfl rfl⟩

end IntegrityVerificationStorage

end ams.fssystem
